import Mathlib

/-!
Verification of the ephemeral file-exchange service of this repository
(`files_server.py`, `unified_server.py`, `file_server.py`,
`file_share_server.py`).

Python strings are modelled as `List Char` (Unicode scalar values, which is
what Python `str` holds for every value that the code can UTF-8 encode),
byte strings as `List Nat` with every element `< 256`, timestamps as `Nat`
(the code only ever compares `datetime` values, so an order-preserving
embedding is faithful), and the JSON registries as association lists.
-/

/-! ## UTF-8 codec (models Python `str.encode('utf-8')` / `bytes.decode('utf-8')`) -/

/-- UTF-8 encoding of a single scalar value, as in CPython's encoder. -/
def utf8EncodeChar (c : Char) : List Nat :=
  if c.toNat < 0x80 then [c.toNat]
  else if c.toNat < 0x800 then [0xC0 + c.toNat / 64, 0x80 + c.toNat % 64]
  else if c.toNat < 0x10000 then
    [0xE0 + c.toNat / 4096, 0x80 + c.toNat / 64 % 64, 0x80 + c.toNat % 64]
  else
    [0xF0 + c.toNat / 262144, 0x80 + c.toNat / 4096 % 64,
      0x80 + c.toNat / 64 % 64, 0x80 + c.toNat % 64]

/-- Models `s.encode('utf-8')`. -/
def utf8Encode : List Char → List Nat
  | [] => []
  | c :: cs => utf8EncodeChar c ++ utf8Encode cs

/-- A pending (incomplete) multi-byte sequence inside the UTF-8 decoder:
accumulated value, number of continuation bytes still expected, and the
admissible range for the next byte (the first continuation byte of a
sequence is range-restricted to rule out overlong forms, surrogates and
values beyond U+10FFFF, exactly as CPython's strict decoder does). -/
structure Utf8Pend where
  acc : Nat
  rem : Nat
  lo : Nat
  hi : Nat
deriving Repr, DecidableEq

/-- Byte-at-a-time strict UTF-8 decoder. `none` models `UnicodeDecodeError`. -/
def utf8DecAux : List Nat → Option Utf8Pend → Option (List Char)
  | [], none => some []
  | [], some _ => none
  | b :: bs, none =>
    if b < 0x80 then (utf8DecAux bs none).map (Char.ofNat b :: ·)
    else if b < 0xC2 then none
    else if b < 0xE0 then utf8DecAux bs (some ⟨b - 0xC0, 1, 0x80, 0xC0⟩)
    else if b < 0xF0 then
      utf8DecAux bs (some ⟨b - 0xE0, 2, if b = 0xE0 then 0xA0 else 0x80,
        if b = 0xED then 0xA0 else 0xC0⟩)
    else if b < 0xF5 then
      utf8DecAux bs (some ⟨b - 0xF0, 3, if b = 0xF0 then 0x90 else 0x80,
        if b = 0xF4 then 0x90 else 0xC0⟩)
    else none
  | b :: bs, some p =>
    if p.lo ≤ b ∧ b < p.hi then
      if p.rem = 1 then
        (utf8DecAux bs none).map (Char.ofNat (p.acc * 64 + (b - 0x80)) :: ·)
      else utf8DecAux bs (some ⟨p.acc * 64 + (b - 0x80), p.rem - 1, 0x80, 0xC0⟩)
    else none

/-- Models `bytes.decode('utf-8')` (strict, the default error handler). -/
def utf8Decode (bs : List Nat) : Option (List Char) := utf8DecAux bs none

/-! ## URL-safe base64 (models `base64.urlsafe_b64encode` / `urlsafe_b64decode`) -/

/-- The URL-safe base64 alphabet (standard alphabet with `-` and `_`). -/
def b64Alphabet : List Char :=
  "ABCDEFGHIJKLMNOPQRSTUVWXYZabcdefghijklmnopqrstuvwxyz0123456789-_".toList

/-- Character for a six-bit value. -/
def sextetChar (n : Nat) : Char := b64Alphabet.getD n 'A'

/-- Six-bit value of an alphabet character (`none` for non-alphabet bytes).
CPython's non-strict decoder silently discards bytes outside the alphabet;
this model maps such inputs to failure instead.  No claim distinguishes the
two behaviours: `decode_download_key` checks its postconditions after
decoding, and round-trip inputs contain only alphabet characters. -/
def charSextet (c : Char) : Option Nat := b64Alphabet.findIdx? (· = c)

/-- Models `base64.urlsafe_b64encode` (with padding). -/
def b64encode : List Nat → List Char
  | a :: b :: c :: rest =>
    sextetChar (a / 4) :: sextetChar (a % 4 * 16 + b / 16) ::
      sextetChar (b % 16 * 4 + c / 64) :: sextetChar (c % 64) :: b64encode rest
  | [a, b] =>
    [sextetChar (a / 4), sextetChar (a % 4 * 16 + b / 16), sextetChar (b % 16 * 4), '=']
  | [a] => [sextetChar (a / 4), sextetChar (a % 4 * 16), '=', '=']
  | [] => []

/-- Models `str.rstrip('=')`. -/
def rstripEq (l : List Char) : List Char := (l.reverse.dropWhile (· == '=')).reverse

/-- Models `key + '=' * (-len(key) % 4)` (Python modulo is nonnegative here). -/
def padB64 (l : List Char) : List Char :=
  l ++ List.replicate ((4 - l.length % 4) % 4) '='

/-- Models `base64.urlsafe_b64decode` on a padded string: processes groups of
four characters; a group may end in `=` or `==` only at the end of the
input; a length that is not a multiple of four fails (Python raises
`binascii.Error`, caught by the caller). -/
def b64decodeGroups : List Char → Option (List Nat)
  | [] => some []
  | c1 :: c2 :: c3 :: c4 :: rest =>
    (charSextet c1).bind fun s1 =>
    (charSextet c2).bind fun s2 =>
    if c3 = '=' then
      if c4 = '=' ∧ rest = [] then some [s1 * 4 + s2 / 16] else none
    else
      (charSextet c3).bind fun s3 =>
      if c4 = '=' then
        if rest = [] then some [s1 * 4 + s2 / 16, s2 % 16 * 16 + s3 / 4] else none
      else
        (charSextet c4).bind fun s4 =>
        (b64decodeGroups rest).map fun bs =>
          (s1 * 4 + s2 / 16) :: (s2 % 16 * 16 + s3 / 4) :: (s3 % 4 * 64 + s4) :: bs
  | _ => none

/-! ## Download-key codec (`files_server.py` lines 52-68, `file_share_server.py` 35-38) -/

/-- Models `raw.split('/', 1)` followed by the two-element unpacking: `none`
when there is no `/` (Python raises `ValueError`, caught by the caller). -/
def splitFirst (sep : Char) : List Char → Option (List Char × List Char)
  | [] => none
  | c :: cs =>
    if c = sep then some ([], cs)
    else (splitFirst sep cs).map (fun p => (c :: p.1, p.2))

/-- Models `os.path.basename` (POSIX): everything after the last `/`. -/
def pyBasename (l : List Char) : List Char := (l.reverse.takeWhile (· != '/')).reverse

/-- `files_server.encode_download_key`:
`base64.urlsafe_b64encode(f"{session_id}/{filename}".encode('utf-8'))`
with the `=` padding stripped. -/
def encode_download_key (sessionId filename : List Char) : List Char :=
  rstripEq (b64encode (utf8Encode (sessionId ++ '/' :: filename)))

/-- `files_server.decode_download_key`: restore padding, ASCII-encode (fails
on non-ASCII characters), URL-safe base64-decode, UTF-8-decode, split on the
first `/`, take the basename of each half, and reject empty components.
Every exception path returns `none` (the Python returns `(None, None)`). -/
def decode_download_key (key : List Char) : Option (List Char × List Char) :=
  let padded := padB64 key
  if padded.any (fun c => decide (0x80 ≤ c.toNat)) then none
  else
    (b64decodeGroups padded).bind fun raw =>
    (utf8Decode raw).bind fun rawChars =>
    (splitFirst '/' rawChars).bind fun sf =>
    let sid := pyBasename sf.1
    let fn := pyBasename sf.2
    if sid = [] ∨ fn = [] then none else some (sid, fn)

/-- Is `pat` a prefix of `l`? -/
def isPrefixL [DecidableEq α] : List α → List α → Bool
  | [], _ => true
  | _ :: _, [] => false
  | a :: pat, b :: l => if a = b then isPrefixL pat l else false

/-- Index of the first occurrence of the sublist `pat` in `l` (Python
`find` semantics for nonnegative results). -/
def findSubIdx [DecidableEq α] (pat : List α) : List α → Option Nat
  | [] => if isPrefixL pat [] then some 0 else none
  | a :: t =>
    if isPrefixL pat (a :: t) then some 0 else (findSubIdx pat t).map (· + 1)

/-- Models Python's `in` on strings and bytes. -/
def containsSub [DecidableEq α] (pat l : List α) : Bool := (findSubIdx pat l).isSome

/-- Fuel-driven worker for `pySplit` (fuel `l.length + 1` always suffices
because each found separator consumes at least one element). -/
def pySplitFuel [DecidableEq α] (sep : List α) : Nat → List α → List (List α)
  | 0, l => [l]
  | fuel + 1, l =>
    match findSubIdx sep l with
    | none => [l]
    | some i => l.take i :: pySplitFuel sep fuel (l.drop (i + sep.length))

/-- Models `str.split(sep)` / `bytes.split(sep)` for a nonempty separator
(the only way the code calls it; Python raises on an empty separator). -/
def pySplit [DecidableEq α] (sep l : List α) : List (List α) :=
  if sep = [] then [l] else pySplitFuel sep (l.length + 1) l

/-- Models `str.find(sub, start)` for a nonnegative `start`: `-1` when
absent, else the absolute index. -/
def pyFindFrom (l pat : List Char) (start : Int) : Int :=
  let s : Nat := if start < 0 then (l.length + start).toNat else min start.toNat l.length
  match findSubIdx pat (l.drop s) with
  | none => -1
  | some i => (s + i : Nat)

/-- Models the Python slice `l[a:b]` with full negative-index semantics. -/
def pySlice (l : List Char) (a b : Int) : List Char :=
  let n := l.length
  let lo : Nat := if a < 0 then (n + a).toNat else min a.toNat n
  let hi : Nat := if b < 0 then (n + b).toNat else min b.toNat n
  (l.take hi).drop lo

/-- Models `bytes.rstrip(set)`: strip any trailing byte in `set`. -/
def rstripSet (l : List Nat) (set : List Nat) : List Nat :=
  (l.reverse.dropWhile (set.contains ·)).reverse

/-- Fuel-driven worker for `natDigits`. -/
def natDigitsFuel : Nat → Nat → List Char
  | 0, _ => []
  | fuel + 1, n =>
    if n < 10 then [Char.ofNat (48 + n)]
    else natDigitsFuel fuel (n / 10) ++ [Char.ofNat (48 + n % 10)]

/-- Models Python `str(n)` for a natural number (`int(time.time())` is
nonnegative). -/
def natDigits (n : Nat) : List Char := natDigitsFuel (n + 1) n

/-- Decimal valuation, the inverse of `natDigits`. -/
def digitsVal (l : List Char) : Nat := l.foldl (fun a c => a * 10 + (c.toNat - 48)) 0

/-! ## Server state (`/files` tree and the two JSON registries) -/

/-- Association-list lookup (first binding wins, as in a Python dict with
unique keys). -/
def alookup : List (List Char × α) → List Char → Option α
  | [], _ => none
  | (k, v) :: rest, key => if k = key then some v else alookup rest key

/-- Association-list update: `d[key] = v`. -/
def aset : List (List Char × α) → List Char → α → List (List Char × α)
  | [], key, v => [(key, v)]
  | (k, w) :: rest, key, v =>
    if k = key then (key, v) :: rest else (k, w) :: aset rest key v

/-- Association-list removal: `del d[key]`. -/
def aremove : List (List Char × α) → List Char → List (List Char × α)
  | [], _ => []
  | (k, w) :: rest, key => if k = key then rest else (k, w) :: aremove rest key

/-- One entry of `tokens.json`.  `used` reads absent keys as `False`
(`data.get('used')`); `filename` / `size` / `uploaded_at` are only written
by a successful upload. -/
structure TokenData where
  created : Nat
  expires : Nat
  used : Bool
  description : List Char
  filename : Option (List Char)
  uploadedAt : Option Nat
  size : Option Nat
deriving Repr, DecidableEq

/-- One entry of `sessions.json`. -/
structure SessionData where
  created : Nat
  expires : Nat
  description : List Char
  files : List (List Char)
deriving Repr, DecidableEq

/-- The parts of the `/files` tree and the registries that the handlers in
`files_server.py` touch: `tokens.json`, `sessions.json`, the flat uploads
directory, the per-session directories under `SESSIONS_DIR`, and the set of
subdirectory names under `SHARED_DIR` (which `cleanup_sessions` deletes
from). -/
structure ServerState where
  tokens : List (List Char × TokenData)
  sessions : List (List Char × SessionData)
  uploadsDir : List (List Char × List Nat)
  sessionsFs : List (List Char × List (List Char × List Nat))
  sharedDirs : List (List Char)
deriving Repr, DecidableEq

/-- The pieces of a POST request that `handle_upload` reads. -/
structure UploadRequest where
  contentLength : Nat
  contentType : List Char
  body : List Nat
deriving Repr, DecidableEq

/-- The distinct rejection branches of `files_server.handle_upload`, one
constructor per `send_json({'error': ...}, 400)` call site.  Note that the
expired and the already-used token share one branch and one message. -/
inductive UploadErr where
  | invalidToken
  | expiredOrUsed
  | tooLarge
  | notMultipart
  | invalidBoundary
  | noFile
deriving Repr, DecidableEq

/-- The literal JSON error strings sent by `handle_upload`. -/
def uploadErrMsg : UploadErr → List Char
  | .invalidToken => "Invalid token".toList
  | .expiredOrUsed => "Token expired or used".toList
  | .tooLarge => "File too large (max 50MB)".toList
  | .notMultipart => "Expected multipart/form-data".toList
  | .invalidBoundary => "Invalid boundary".toList
  | .noFile => "No file in request".toList

/-- Outcome of a POST `/upload/{token}`. -/
inductive UploadResult where
  | ok (filename : List Char)
  | err (e : UploadErr)
deriving Repr, DecidableEq

def maxFileSize : Nat := 50 * 1024 * 1024

/-- Models `os.path.splitext` for a basename (no `/`): split at the last
dot, unless every character before it is itself a dot. -/
def splitextChars (p : List Char) : List Char × List Char :=
  match (findSubIdx ['.'] p.reverse).map (fun i => p.length - 1 - i) with
  | none => (p, [])
  | some di =>
    if (p.take di).any (fun c => c != '.') then (p.take di, p.drop di) else (p, [])

/-- First step of the lossy UTF-8 decoder on a lead byte: either emit a
scalar value (the byte itself, or U+FFFD for an invalid lead) or open a
multi-byte sequence. -/
inductive LeadStep where
  | emit (v : Nat)
  | start (p : Utf8Pend)
deriving Repr, DecidableEq

def utf8LeadStep (b : Nat) : LeadStep :=
  if b < 0x80 then .emit b
  else if b < 0xC2 then .emit 0xFFFD
  else if b < 0xE0 then .start ⟨b - 0xC0, 1, 0x80, 0xC0⟩
  else if b < 0xF0 then
    .start ⟨b - 0xE0, 2, if b = 0xE0 then 0xA0 else 0x80,
      if b = 0xED then 0xA0 else 0xC0⟩
  else if b < 0xF5 then
    .start ⟨b - 0xF0, 3, if b = 0xF0 then 0x90 else 0x80,
      if b = 0xF4 then 0x90 else 0xC0⟩
  else .emit 0xFFFD

/-- Lossy UTF-8 decoding, models `bytes.decode('utf-8', errors='replace')`:
each maximal ill-formed subpart becomes one U+FFFD and the offending byte is
reconsidered as a fresh lead, exactly as CPython substitutes. -/
def utf8ReplAux : List Nat → Option Utf8Pend → List Char
  | [], none => []
  | [], some _ => [Char.ofNat 0xFFFD]
  | b :: bs, none =>
    match utf8LeadStep b with
    | .emit v => Char.ofNat v :: utf8ReplAux bs none
    | .start p => utf8ReplAux bs (some p)
  | b :: bs, some p =>
    if p.lo ≤ b ∧ b < p.hi then
      if p.rem = 1 then Char.ofNat (p.acc * 64 + (b - 0x80)) :: utf8ReplAux bs none
      else utf8ReplAux bs (some ⟨p.acc * 64 + (b - 0x80), p.rem - 1, 0x80, 0xC0⟩)
    else
      Char.ofNat 0xFFFD ::
        (match utf8LeadStep b with
         | .emit v => Char.ofNat v :: utf8ReplAux bs none
         | .start p' => utf8ReplAux bs (some p'))

def utf8DecodeReplace (bs : List Nat) : List Char := utf8ReplAux bs none

/-- The multipart scan of `handle_upload` (lines 524-540): find the first
part whose bytes contain `filename="`; skip parts with no blank line
(`continue`); decode the header block with `errors='replace'`, extract the
text between `filename="` and the next `"` with Python's `find`/slice
semantics, and strip trailing `\r`, `\n`, `-` bytes from the content. -/
def findFilePart : List (List Nat) → Option (List Char × List Nat)
  | [] => none
  | part :: rest =>
    if containsSub (utf8Encode "filename=\"".toList) part then
      match findSubIdx [13, 10, 13, 10] part with
      | none => findFilePart rest
      | some headerEnd =>
        let headers := utf8DecodeReplace (part.take headerEnd)
        let content := part.drop (headerEnd + 4)
        let fnStart := pyFindFrom headers "filename=\"".toList 0 + 10
        let fnEnd := pyFindFrom headers ['"'] fnStart
        some (pySlice headers fnStart fnEnd, rstripSet content [13, 10, 45])
    else findFilePart rest

/-- The on-disk name `handle_upload` persists under (lines 546-553):
basename of the client filename, `upload_<ts>` fallback when empty, then
the creation timestamp spliced in before the extension.  Both
`int(time.time())` reads are modelled by the single `epoch` (sub-second
clock drift between two calls in one request is out of scope). -/
def uploadDiskName (filename : List Char) (epoch : Nat) : List Char :=
  let safe0 := pyBasename filename
  let safe1 := if safe0 = [] then "upload_".toList ++ natDigits epoch else safe0
  let pr := splitextChars safe1
  pr.1 ++ '_' :: natDigits epoch ++ pr.2

/-- `files_server.handle_upload` (lines 488-564).  `now` models
`datetime.now()`, `epoch` models `int(time.time())`.  Mirrors the source's
check order: token exists; not (expired or used); `Content-Length` cap;
`multipart/form-data` marker; `boundary=` split; multipart scan; then the
write to the uploads directory and the token consumption in one save. -/
def handle_upload (now epoch : Nat) (token : List Char) (req : UploadRequest)
    (st : ServerState) : UploadResult × ServerState :=
  match alookup st.tokens token with
  | none => (.err .invalidToken, st)
  | some d =>
    if now > d.expires ∨ d.used then (.err .expiredOrUsed, st)
    else if req.contentLength > maxFileSize then (.err .tooLarge, st)
    else if !(containsSub "multipart/form-data".toList req.contentType) then
      (.err .notMultipart, st)
    else
      match (pySplit "boundary=".toList req.contentType).get? 1 with
      | none => (.err .invalidBoundary, st)
      | some boundaryChars =>
        match findFilePart (pySplit (45 :: 45 :: utf8Encode boundaryChars)
            (req.body.take req.contentLength)) with
        | none => (.err .noFile, st)
        | some (filename, fileContent) =>
          if filename = [] then (.err .noFile, st)
          else
            let safeName := uploadDiskName filename epoch
            let d' : TokenData :=
              { d with
                used := true
                filename := some safeName
                uploadedAt := some now
                size := some fileContent.length }
            (.ok safeName,
              { st with
                uploadsDir := aset st.uploadsDir safeName fileContent
                tokens := aset st.tokens token d' })

/-- The JSON answered by `files_server.check_token` (lines 600-617):
`{'exists': False, ...}` or the flags taken from the registry entry, with
`expired` computed against the stored expiry on every call. -/
inductive CheckResult where
  | missing
  | info (used : Bool) (filename : Option (List Char)) (expires : Nat) (expired : Bool)
deriving Repr, DecidableEq

def check_token (now : Nat) (token : List Char) (st : ServerState) : CheckResult :=
  match alookup st.tokens token with
  | none => .missing
  | some d => .info d.used d.filename d.expires (decide (now > d.expires))

/-- `files_server.cleanup_sessions` (lines 71-83): for every expired
session, delete `SHARED_DIR/<sid>` — not `SESSIONS_DIR/<sid>`, where the
session files actually live — and drop the registry entry. -/
def cleanup_sessions (now : Nat) (st : ServerState) : ServerState :=
  { st with
    sessions := st.sessions.filter (fun kv => !(decide (now > kv.2.expires))),
    sharedDirs := st.sharedDirs.filter (fun d =>
      !((alookup st.sessions d).any (fun s => decide (now > s.expires)))) }

/-- Outcome of `GET /{sid}` or `GET /{sid}/{filename}`. -/
inductive GetResult where
  | sessionNotFound
  | fileNotFound
  | sessionPage (files : List (List Char)) (expires : Nat)
  | fileBytes (content : List Nat)
deriving Repr, DecidableEq

/-- The session route of `files_server.do_GET` (lines 205-221) with
`show_session` (335-349) and `download_file` (311-323): serve purely from
the filesystem and the registry, with no expiry check anywhere. -/
def do_GET_session (sid : List Char) (filename : Option (List Char))
    (st : ServerState) : GetResult :=
  match alookup st.sessionsFs sid with
  | none => .sessionNotFound
  | some dirFiles =>
    match filename with
    | none =>
      match alookup st.sessions sid with
      | none => .sessionNotFound
      | some data => .sessionPage data.files data.expires
    | some fn =>
      match alookup dirFiles fn with
      | none => .fileNotFound
      | some bytes => .fileBytes bytes

/-! ## Concrete fixtures for counterexamples and witnesses -/

/-- A freshly issued token (`create_token` / `create_upload_link_and_redirect`). -/
def freshToken (expires : Nat) : TokenData := ⟨0, expires, false, [], none, none, none⟩

/-- A well-formed multipart POST body for one file field, as the upload page
builds with `FormData`. -/
def mkUploadReq (filename content : String) : UploadRequest :=
  let body := utf8Encode
    ("--XYZ\r\nContent-Disposition: form-data; name=\"file\"; filename=\"".toList ++
      filename.toList ++ "\"\r\n\r\n".toList ++ content.toList ++ "\r\n--XYZ--\r\n".toList)
  { contentLength := body.length
    contentType := "multipart/form-data; boundary=XYZ".toList
    body := body }

/-- Two pending tokens: `tA` expires at 100, `tB` expired at 5. -/
def stC1 : ServerState :=
  { tokens := [("tA".toList, freshToken 100), ("tB".toList, freshToken 5)]
    sessions := []
    uploadsDir := []
    sessionsFs := []
    sharedDirs := [] }

/-- A session `s1` that expires at time 10, holding `a.txt` = "hi". -/
def stC2 : ServerState :=
  { tokens := []
    sessions := [("s1".toList, ⟨0, 10, [], ["a.txt".toList]⟩)]
    uploadsDir := []
    sessionsFs := [("s1".toList, [("a.txt".toList, [104, 105])])]
    sharedDirs := [] }

/-! ## C6: the order and distinctness of the upload checks -/

/-- Modelled from the spec's precondition order (amended as the code has
it): the failure a `POST /upload/{token}` must be answered with, `none`
when every check passes.  Unknown token, then the *single combined*
expired-or-used rejection, then the size cap, then the two malformed-input
rejections (no `multipart/form-data` marker, no `boundary=` parameter):
the code distinguishes two token-state failures, not three. -/
def uploadFailureSpec (now : Nat) (token : List Char) (req : UploadRequest)
    (st : ServerState) : Option UploadErr :=
  match alookup st.tokens token with
  | none => some .invalidToken
  | some d =>
    if now > d.expires ∨ d.used then some .expiredOrUsed
    else if req.contentLength > maxFileSize then some .tooLarge
    else if !(containsSub "multipart/form-data".toList req.contentType) then
      some .notMultipart
    else if ((pySplit "boundary=".toList req.contentType).get? 1).isNone then
      some .invalidBoundary
    else none

/-! ## C7: check answers Expired, never Pending, for stale tokens -/

/-- The spec's four-way status read off a `check_token` response. -/
inductive TokenStatus where
  | notFound
  | usedTok
  | expiredTok
  | pending
deriving Repr, DecidableEq

/-- Spec-side classification of the JSON `check_token` answers:
`exists=False` is NotFound; `used` wins, then `expired`, else Pending. -/
def checkStatus : CheckResult → TokenStatus
  | .missing => .notFound
  | .info used _ _ expired =>
    if used then .usedTok else if expired then .expiredTok else .pending

/-! ## C9: registry loading -/

/-- The observable states of a backing JSON document on disk: missing,
present but not valid JSON, or parsing to a mapping. -/
inductive RegistryDoc (α : Type) where
  | absent
  | unparsable
  | parsed (m : List (List Char × α))
deriving Repr, DecidableEq

/-- `files_server.load_json` (lines 35-40): `try: json.load  except: return
dict()` — every failure, missing file or bad JSON, loads as empty. -/
def load_json (d : RegistryDoc α) : List (List Char × α) :=
  match d with
  | .absent => []
  | .unparsable => []
  | .parsed m => m

/-- Outcome of a loader that has no exception handler. -/
inductive PyLoadResult (α : Type) where
  | ok (m : List (List Char × α))
  | raised
deriving Repr, DecidableEq

/-- `unified_server.load_sessions` (lines 31-35, identical shape in
`load_tokens`, 41-45): guarded only by `os.path.exists`, so a present but
unparsable document lets `json.load`'s `JSONDecodeError` escape. -/
def load_sessions_unified (d : RegistryDoc α) : PyLoadResult α :=
  match d with
  | .absent => .ok []
  | .unparsable => .raised
  | .parsed m => .ok m

def sessionTTLseconds : Nat := 24 * 60 * 60

/-- `file_share_server.cleanup_expired_sessions` (lines 53-68): removes each
expired session's directory under `SESSIONS_DIR` — the correct one in this
file — and its registry entry. -/
def cleanup_expired_sessions_fss (now : Nat) (st : ServerState) : ServerState :=
  { st with
    sessions := st.sessions.filter (fun kv => !(decide (now > kv.2.expires)))
    sessionsFs := st.sessionsFs.filter (fun kv =>
      !((alookup st.sessions kv.1).any (fun s => decide (now > s.expires)))) }

/-- Answers of the `share_file` tool. -/
inductive ShareResult where
  | errFileNotFound
  | errSessionNotFound
  | link (sessionId filename : List Char)
deriving Repr, DecidableEq

/-- The `share_file` branch of `file_share_server.call_tool` (lines
171-226): sweep expired sessions on entry (line 174), require the source
file, derive the filename by basename, create a fresh session (`newSid`
models `uuid4`) when none is given, require the session directory, copy the
bytes in, and append the filename to the registry entry only when not
already present. -/
def tool_share_file (now : Nat) (newSid : List Char) (filePath : List Char)
    (sessionId : Option (List Char)) (description : List Char)
    (extFs : List (List Char × List Nat)) (st : ServerState) :
    ShareResult × ServerState :=
  let st0 := cleanup_expired_sessions_fss now st
  match alookup extFs filePath with
  | none => (.errFileNotFound, st0)
  | some bytes =>
    let filename := pyBasename filePath
    let pr :=
      match sessionId with
      | some s => (s, st0)
      | none =>
        (newSid,
          { st0 with
            sessionsFs := aset st0.sessionsFs newSid []
            sessions := aset st0.sessions newSid
              ⟨now, now + sessionTTLseconds, description, []⟩ })
    match alookup pr.2.sessionsFs pr.1 with
    | none => (.errSessionNotFound, pr.2)
    | some dirFiles =>
      let st2 := { pr.2 with
        sessionsFs := aset pr.2.sessionsFs pr.1 (aset dirFiles filename bytes) }
      match alookup st2.sessions pr.1 with
      | some sdata =>
        if filename ∈ sdata.files then (.link pr.1 filename, st2)
        else
          let sdata' := { sdata with files := sdata.files ++ [filename] }
          (.link pr.1 filename, { st2 with sessions := aset st2.sessions pr.1 sdata' })
      | none => (.link pr.1 filename, st2)

/-- Answers of `file_server.add_file_to_session`: `None` or the download
URL (carried here as the `(sessionId, filename)` pair the URL is built
from). -/
inductive AddFileResult where
  | failed
  | url (sessionId filename : List Char)
deriving Repr, DecidableEq

/-- `file_server.add_file_to_session` (lines 67-90): checks only that the
session *directory* exists (no expiry check, no sweep), writes the given
content (modelled as bytes; a `str` is UTF-8-encoded first) or copies from
`source_path`, then appends the filename to the registry entry
*unconditionally*. -/
def add_file_to_session (sid filename : List Char) (content : Option (List Nat))
    (sourcePath : Option (List Char)) (extFs : List (List Char × List Nat))
    (st : ServerState) : AddFileResult × ServerState :=
  match alookup st.sessionsFs sid with
  | none => (.failed, st)
  | some dirFiles =>
    let afterWrite := fun (bytes : List Nat) =>
      let st1 := { st with
        sessionsFs := aset st.sessionsFs sid (aset dirFiles filename bytes) }
      match alookup st1.sessions sid with
      | some sdata =>
        let sdata' := { sdata with files := sdata.files ++ [filename] }
        (AddFileResult.url sid filename,
          { st1 with sessions := aset st1.sessions sid sdata' })
      | none => (AddFileResult.url sid filename, st1)
    match content with
    | some bytes => afterWrite bytes
    | none =>
      match sourcePath with
      | some p =>
        match alookup extFs p with
        | some bytes => afterWrite bytes
        | none => (.failed, st)
      | none => (.failed, st)

/-- A live session `s` (expires 100) holding `a.txt`. -/
def stC8 : ServerState :=
  { tokens := []
    sessions := [("s".toList, ⟨0, 100, [], ["a.txt".toList]⟩)]
    uploadsDir := []
    sessionsFs := [("s".toList, [("a.txt".toList, [65])])]
    sharedDirs := [] }

/-! ### Theorems -/

theorem utf8DecAux_lead_cons (b : Nat) (bs : List Nat) :
    utf8DecAux (b :: bs) none =
      (if b < 0x80 then (utf8DecAux bs none).map (Char.ofNat b :: ·)
       else if b < 0xC2 then none
       else if b < 0xE0 then utf8DecAux bs (some ⟨b - 0xC0, 1, 0x80, 0xC0⟩)
       else if b < 0xF0 then
         utf8DecAux bs (some ⟨b - 0xE0, 2, if b = 0xE0 then 0xA0 else 0x80,
           if b = 0xED then 0xA0 else 0xC0⟩)
       else if b < 0xF5 then
         utf8DecAux bs (some ⟨b - 0xF0, 3, if b = 0xF0 then 0x90 else 0x80,
           if b = 0xF4 then 0x90 else 0xC0⟩)
       else none) := rfl

theorem utf8DecAux_pend_cons (b : Nat) (bs : List Nat) (p : Utf8Pend) :
    utf8DecAux (b :: bs) (some p) =
      (if p.lo ≤ b ∧ b < p.hi then
        if p.rem = 1 then
          (utf8DecAux bs none).map (Char.ofNat (p.acc * 64 + (b - 0x80)) :: ·)
        else utf8DecAux bs (some ⟨p.acc * 64 + (b - 0x80), p.rem - 1, 0x80, 0xC0⟩)
      else none) := rfl

theorem char_toNat_valid (c : Char) :
    c.toNat < 0xD800 ∨ (0xDFFF < c.toNat ∧ c.toNat < 0x110000) := by
  have h := c.valid
  rcases h with h | h
  · left
    have : c.val.toNat < (0xD800 : UInt32).toNat := h
    simpa [Char.toNat] using this
  · right
    obtain ⟨h1, h2⟩ := h
    constructor
    · have : (0xDFFF : UInt32).toNat < c.val.toNat := h1
      simpa [Char.toNat] using this
    · have : c.val.toNat < (0x110000 : UInt32).toNat := h2
      simpa [Char.toNat] using this

theorem utf8EncodeChar_byteLt (c : Char) : ∀ b ∈ utf8EncodeChar c, b < 256 := by
  intro b hb
  have hv := char_toNat_valid c
  unfold utf8EncodeChar at hb
  by_cases h1 : c.toNat < 0x80
  · rw [if_pos h1] at hb
    simp only [List.mem_singleton] at hb
    omega
  · rw [if_neg h1] at hb
    by_cases h2 : c.toNat < 0x800
    · rw [if_pos h2] at hb
      simp only [List.mem_cons, List.not_mem_nil, or_false] at hb
      omega
    · rw [if_neg h2] at hb
      by_cases h3 : c.toNat < 0x10000
      · rw [if_pos h3] at hb
        simp only [List.mem_cons, List.not_mem_nil, or_false] at hb
        omega
      · rw [if_neg h3] at hb
        simp only [List.mem_cons, List.not_mem_nil, or_false] at hb
        omega

theorem utf8Encode_byteLt (s : List Char) : ∀ b ∈ utf8Encode s, b < 256 := by
  induction s with
  | nil => intro b hb; simp [utf8Encode] at hb
  | cons c cs ih =>
    intro b hb
    simp only [utf8Encode, List.mem_append] at hb
    rcases hb with hb | hb
    · exact utf8EncodeChar_byteLt c b hb
    · exact ih b hb

theorem utf8DecAux_encodeChar (c : Char) (rest : List Nat) :
    utf8DecAux (utf8EncodeChar c ++ rest) none =
      (utf8DecAux rest none).map (c :: ·) := by
  have hv := char_toNat_valid c
  have hofn : Char.ofNat c.toNat = c := Char.ofNat_toNat c
  set v := c.toNat with hvdef
  unfold utf8EncodeChar
  rw [← hvdef]
  by_cases h1 : v < 0x80
  · rw [if_pos h1]
    simp only [List.cons_append, List.nil_append, utf8DecAux_lead_cons, if_pos h1, hofn]
  · rw [if_neg h1]
    by_cases h2 : v < 0x800
    · rw [if_pos h2]
      simp only [List.cons_append, List.nil_append, utf8DecAux_lead_cons,
        utf8DecAux_pend_cons]
      rw [if_neg (by omega), if_neg (by omega), if_pos (by omega)]
      rw [if_pos (⟨by omega, by omega⟩ : (0x80 : Nat) ≤ 0x80 + v % 64 ∧ 0x80 + v % 64 < 0xC0)]
      rw [if_pos (by trivial)]
      have harith : (0xC0 + v / 64 - 0xC0) * 64 + (0x80 + v % 64 - 0x80) = v := by omega
      rw [harith, hofn]
    · rw [if_neg h2]
      by_cases h3 : v < 0x10000
      · rw [if_pos h3]
        simp only [List.cons_append, List.nil_append, utf8DecAux_lead_cons,
          utf8DecAux_pend_cons]
        rw [if_neg (by omega), if_neg (by omega), if_neg (by omega), if_pos (by omega)]
        have hlead : 0xE0 + v / 4096 - 0xE0 = v / 4096 := by omega
        have hb1 : (if 0xE0 + v / 4096 = 0xE0 then 0xA0 else 0x80) ≤ 0x80 + v / 64 % 64 ∧
            0x80 + v / 64 % 64 < (if 0xE0 + v / 4096 = 0xED then 0xA0 else 0xC0) := by
          constructor
          · split <;> omega
          · split <;> omega
        rw [if_pos hb1]
        rw [if_neg (by omega)]
        have hacc : (0xE0 + v / 4096 - 0xE0) * 64 + (0x80 + v / 64 % 64 - 0x80) = v / 64 := by
          omega
        rw [hacc]
        rw [if_pos (⟨by omega, by omega⟩ :
          (0x80 : Nat) ≤ 0x80 + v % 64 ∧ 0x80 + v % 64 < 0xC0)]
        rw [if_pos (by trivial)]
        have harith : v / 64 * 64 + (0x80 + v % 64 - 0x80) = v := by omega
        rw [harith, hofn]
      · rw [if_neg h3]
        simp only [List.cons_append, List.nil_append, utf8DecAux_lead_cons,
          utf8DecAux_pend_cons]
        rw [if_neg (by omega), if_neg (by omega), if_neg (by omega), if_neg (by omega),
          if_pos (by omega)]
        have hb1 : (if 0xF0 + v / 262144 = 0xF0 then 0x90 else 0x80) ≤ 0x80 + v / 4096 % 64 ∧
            0x80 + v / 4096 % 64 < (if 0xF0 + v / 262144 = 0xF4 then 0x90 else 0xC0) := by
          constructor
          · split <;> omega
          · split <;> omega
        rw [if_pos hb1]
        rw [if_neg (by omega)]
        have hacc : (0xF0 + v / 262144 - 0xF0) * 64 + (0x80 + v / 4096 % 64 - 0x80) =
            v / 4096 := by omega
        rw [hacc]
        rw [if_pos (⟨by omega, by omega⟩ :
          (0x80 : Nat) ≤ 0x80 + v / 64 % 64 ∧ 0x80 + v / 64 % 64 < 0xC0)]
        rw [if_neg (by omega)]
        have hacc2 : v / 4096 * 64 + (0x80 + v / 64 % 64 - 0x80) = v / 64 := by omega
        rw [hacc2]
        rw [if_pos (⟨by omega, by omega⟩ :
          (0x80 : Nat) ≤ 0x80 + v % 64 ∧ 0x80 + v % 64 < 0xC0)]
        rw [if_pos (by trivial)]
        have harith : v / 64 * 64 + (0x80 + v % 64 - 0x80) = v := by omega
        rw [harith, hofn]

/-- Strict UTF-8 round trip: decoding an encoded string restores it. -/
theorem utf8Decode_encode (s : List Char) : utf8Decode (utf8Encode s) = some s := by
  unfold utf8Decode
  induction s with
  | nil => rfl
  | cons c cs ih =>
    show utf8DecAux (utf8EncodeChar c ++ utf8Encode cs) none = some (c :: cs)
    rw [utf8DecAux_encodeChar, ih]
    rfl

theorem utf8Encode_append (xs ys : List Char) :
    utf8Encode (xs ++ ys) = utf8Encode xs ++ utf8Encode ys := by
  induction xs with
  | nil => rfl
  | cons c cs ih =>
    show utf8EncodeChar c ++ utf8Encode (cs ++ ys) =
      utf8EncodeChar c ++ utf8Encode cs ++ utf8Encode ys
    rw [ih, List.append_assoc]

theorem charSextet_sextetChar : ∀ n, n < 64 → charSextet (sextetChar n) = some n := by
  decide

theorem sextetChar_ne_pad : ∀ n, n < 64 → sextetChar n ≠ '=' := by decide

theorem sextetChar_ascii : ∀ n, n < 64 → (sextetChar n).toNat < 0x80 := by decide

theorem b64decodeGroups_encode :
    ∀ bs : List Nat, (∀ b ∈ bs, b < 256) → b64decodeGroups (b64encode bs) = some bs
  | [], _ => rfl
  | [a], h => by
    have ha : a < 256 := h a (by simp)
    show b64decodeGroups [sextetChar (a / 4), sextetChar (a % 4 * 16), '=', '='] = some [a]
    simp only [b64decodeGroups]
    rw [charSextet_sextetChar _ (by omega), charSextet_sextetChar _ (by omega)]
    simp only [Option.some_bind]
    simp
    omega
  | [a, b], h => by
    have ha : a < 256 := h a (by simp)
    have hb : b < 256 := h b (by simp)
    show b64decodeGroups [sextetChar (a / 4), sextetChar (a % 4 * 16 + b / 16),
      sextetChar (b % 16 * 4), '='] = some [a, b]
    simp only [b64decodeGroups]
    rw [charSextet_sextetChar _ (by omega), charSextet_sextetChar _ (by omega)]
    simp only [Option.some_bind]
    rw [if_neg (sextetChar_ne_pad _ (by omega))]
    rw [charSextet_sextetChar _ (by omega)]
    simp only [Option.some_bind]
    simp
    omega
  | a :: b :: c :: rest, h => by
    have ha : a < 256 := h a (by simp)
    have hb : b < 256 := h b (by simp)
    have hc : c < 256 := h c (by simp)
    have ih := b64decodeGroups_encode rest (fun x hx => h x (by simp [hx]))
    show b64decodeGroups (sextetChar (a / 4) :: sextetChar (a % 4 * 16 + b / 16) ::
      sextetChar (b % 16 * 4 + c / 64) :: sextetChar (c % 64) :: b64encode rest) =
      some (a :: b :: c :: rest)
    simp only [b64decodeGroups]
    rw [charSextet_sextetChar _ (by omega), charSextet_sextetChar _ (by omega)]
    simp only [Option.some_bind]
    rw [if_neg (sextetChar_ne_pad _ (by omega))]
    rw [charSextet_sextetChar _ (by omega)]
    simp only [Option.some_bind]
    rw [if_neg (sextetChar_ne_pad _ (by omega))]
    rw [charSextet_sextetChar _ (by omega)]
    simp only [Option.some_bind]
    rw [ih]
    simp only [Option.map_some']
    simp
    omega

theorem rstripEq_append (xs ys : List Char) :
    rstripEq (xs ++ ys) = if rstripEq ys = [] then rstripEq xs else xs ++ rstripEq ys := by
  unfold rstripEq
  rw [List.reverse_append, List.dropWhile_append]
  by_cases h : (List.dropWhile (· == '=') ys.reverse).isEmpty
  · rw [if_pos h, if_pos]
    rw [List.isEmpty_iff] at h
    rw [h, List.reverse_nil]
  · rw [if_neg h, if_neg]
    · rw [List.reverse_append, List.reverse_reverse]
    · rw [List.isEmpty_iff] at h
      simp only [ne_eq, List.reverse_eq_nil_iff]
      exact h

theorem rstripEq_ne_nil (c0 : Char) (t : List Char) (hh : c0 ≠ '=') :
    rstripEq (c0 :: t) ≠ [] := by
  intro hc
  unfold rstripEq at hc
  rw [List.reverse_eq_nil_iff, List.dropWhile_eq_nil_iff] at hc
  have := hc c0 (by simp)
  simp only [beq_iff_eq] at this
  exact hh this

theorem b64encode_head :
    ∀ (a : Nat) (rest : List Nat), ∃ t, b64encode (a :: rest) = sextetChar (a / 4) :: t := by
  intro a rest
  match rest with
  | [] => exact ⟨_, rfl⟩
  | [b] => exact ⟨_, rfl⟩
  | b :: c :: r => exact ⟨_, rfl⟩

theorem padB64_rstripEq_encode :
    ∀ bs : List Nat, (∀ b ∈ bs, b < 256) → padB64 (rstripEq (b64encode bs)) = b64encode bs
  | [], _ => rfl
  | [a], h => by
    have ha : a < 256 := h a (by simp)
    show padB64 (rstripEq [sextetChar (a / 4), sextetChar (a % 4 * 16), '=', '=']) =
      [sextetChar (a / 4), sextetChar (a % 4 * 16), '=', '=']
    have hx : ((sextetChar (a % 4 * 16) : Char) == '=') = false := by
      rw [beq_eq_false_iff_ne]
      exact sextetChar_ne_pad _ (by omega)
    simp [rstripEq, padB64, List.dropWhile, hx]
  | [a, b], h => by
    have ha : a < 256 := h a (by simp)
    have hb : b < 256 := h b (by simp)
    show padB64 (rstripEq [sextetChar (a / 4), sextetChar (a % 4 * 16 + b / 16),
      sextetChar (b % 16 * 4), '=']) = [sextetChar (a / 4),
      sextetChar (a % 4 * 16 + b / 16), sextetChar (b % 16 * 4), '=']
    have hy : ((sextetChar (b % 16 * 4) : Char) == '=') = false := by
      rw [beq_eq_false_iff_ne]
      exact sextetChar_ne_pad _ (by omega)
    simp [rstripEq, padB64, List.dropWhile, hy]
  | a :: b :: c :: rest, h => by
    have hc : c < 256 := h c (by simp)
    have ih := padB64_rstripEq_encode rest (fun x hx => h x (by simp [hx]))
    show padB64 (rstripEq ([sextetChar (a / 4), sextetChar (a % 4 * 16 + b / 16),
      sextetChar (b % 16 * 4 + c / 64), sextetChar (c % 64)] ++ b64encode rest)) =
      [sextetChar (a / 4), sextetChar (a % 4 * 16 + b / 16),
        sextetChar (b % 16 * 4 + c / 64), sextetChar (c % 64)] ++ b64encode rest
    rw [rstripEq_append]
    match hr : rest with
    | [] =>
      rw [if_pos (show rstripEq (b64encode []) = [] from rfl)]
      have hz : ((sextetChar (c % 64) : Char) == '=') = false := by
        rw [beq_eq_false_iff_ne]
        exact sextetChar_ne_pad _ (by omega)
      simp [rstripEq, padB64, List.dropWhile, hz, b64encode]
    | r0 :: rtail =>
      obtain ⟨t, ht⟩ := b64encode_head r0 rtail
      have hhead : (sextetChar (r0 / 4) : Char) ≠ '=' := by
        have hr0 : r0 < 256 := h r0 (by simp)
        exact sextetChar_ne_pad _ (by omega)
      rw [if_neg (by rw [ht]; exact rstripEq_ne_nil _ _ hhead)]
      rw [padB64, List.append_assoc]
      rw [padB64] at ih
      have hlen : ((4 : Nat) - ([sextetChar (a / 4), sextetChar (a % 4 * 16 + b / 16),
          sextetChar (b % 16 * 4 + c / 64), sextetChar (c % 64)] ++
            rstripEq (b64encode (r0 :: rtail))).length % 4) % 4 =
          (4 - (rstripEq (b64encode (r0 :: rtail))).length % 4) % 4 := by
        rw [List.length_append]
        have : ([sextetChar (a / 4), sextetChar (a % 4 * 16 + b / 16),
          sextetChar (b % 16 * 4 + c / 64), sextetChar (c % 64)] : List Char).length = 4 := rfl
        rw [this]
        omega
      rw [hlen, ih]

theorem b64encode_ascii :
    ∀ bs : List Nat, (∀ b ∈ bs, b < 256) → ∀ c ∈ b64encode bs, c.toNat < 0x80
  | [], _ => by intro c hc; simp [b64encode] at hc
  | [a], h => by
    intro c hc
    have ha : a < 256 := h a (by simp)
    simp only [b64encode, List.mem_cons, List.not_mem_nil, or_false] at hc
    rcases hc with rfl | rfl | rfl | rfl
    · exact sextetChar_ascii _ (by omega)
    · exact sextetChar_ascii _ (by omega)
    · decide
    · decide
  | [a, b], h => by
    intro c hc
    have ha : a < 256 := h a (by simp)
    have hb : b < 256 := h b (by simp)
    simp only [b64encode, List.mem_cons, List.not_mem_nil, or_false] at hc
    rcases hc with rfl | rfl | rfl | rfl
    · exact sextetChar_ascii _ (by omega)
    · exact sextetChar_ascii _ (by omega)
    · exact sextetChar_ascii _ (by omega)
    · decide
  | a :: b :: c0 :: rest, h => by
    intro c hc
    have ha : a < 256 := h a (by simp)
    have hb : b < 256 := h b (by simp)
    have hc0 : c0 < 256 := h c0 (by simp)
    have ih := b64encode_ascii rest (fun x hx => h x (by simp [hx]))
    simp only [b64encode, List.mem_cons] at hc
    rcases hc with rfl | rfl | rfl | rfl | hmem
    · exact sextetChar_ascii _ (by omega)
    · exact sextetChar_ascii _ (by omega)
    · exact sextetChar_ascii _ (by omega)
    · exact sextetChar_ascii _ (by omega)
    · exact ih c hmem

theorem splitFirst_append (sep : Char) (s f : List Char) (hs : sep ∉ s) :
    splitFirst sep (s ++ sep :: f) = some (s, f) := by
  induction s with
  | nil => simp [splitFirst]
  | cons c cs ih =>
    have hc : c ≠ sep := fun hcc => hs (by simp [hcc])
    have hcs : sep ∉ cs := fun hmem => hs (by simp [hmem])
    simp only [List.cons_append, splitFirst, if_neg hc, List.append_eq, ih hcs,
      Option.map_some']

theorem pyBasename_no_slash (l : List Char) (h : '/' ∉ l) : pyBasename l = l := by
  unfold pyBasename
  have : l.reverse.takeWhile (· != '/') = l.reverse := by
    rw [List.takeWhile_eq_self_iff]
    intro x hx
    rw [List.mem_reverse] at hx
    simp only [bne_iff_ne, ne_eq]
    exact fun hxe => h (hxe ▸ hx)
  rw [this, List.reverse_reverse]

theorem mem_pyBasename_ne_slash (l : List Char) : '/' ∉ pyBasename l := by
  intro hmem
  unfold pyBasename at hmem
  rw [List.mem_reverse] at hmem
  have := List.mem_takeWhile_imp hmem
  simp at this

theorem decode_encode_download_key (s f : List Char) (hs : s ≠ []) (hf : f ≠ [])
    (hs2 : '/' ∉ s) (hf2 : '/' ∉ f) :
    decode_download_key (encode_download_key s f) = some (s, f) := by
  have hbytes : ∀ b ∈ utf8Encode (s ++ '/' :: f), b < 256 := utf8Encode_byteLt _
  have hascii : (b64encode (utf8Encode (s ++ '/' :: f))).any
      (fun c => decide (0x80 ≤ c.toNat)) = false := by
    rw [List.any_eq_false]
    intro x hx
    simp only [decide_eq_true_eq, not_le]
    exact b64encode_ascii _ hbytes x hx
  simp only [decode_download_key, encode_download_key]
  rw [padB64_rstripEq_encode _ hbytes, hascii]
  simp only [Bool.false_eq_true, if_false]
  rw [b64decodeGroups_encode _ hbytes]
  simp only [Option.some_bind]
  rw [utf8Decode_encode]
  simp only [Option.some_bind]
  rw [splitFirst_append _ _ _ hs2]
  simp only [Option.some_bind]
  rw [pyBasename_no_slash _ hs2, pyBasename_no_slash _ hf2]
  rw [if_neg]
  simp only [not_or]
  exact ⟨hs, hf⟩

/-- C3 (corrected): the round-trip law `decode(encode(s, f)) = (s, f)` holds
for every nonempty `s` and nonempty `f` containing no `/`; the claim's
quantification over all slash-free strings fails for empty components
(see the counterexample), because `decode_download_key` rejects an empty
basename on either side of the split. -/
theorem claim_C3_theorem (s f : List Char) (hs : s ≠ []) (hf : f ≠ [])
    (hs2 : '/' ∉ s) (hf2 : '/' ∉ f) :
    decode_download_key (encode_download_key s f) = some (s, f) :=
  decode_encode_download_key s f hs hf hs2 hf2

/-- C3 counterexample: the empty session id contains no `/`, yet the round
trip loses it — `decode(encode("", "x"))` is the failure value, not
`("", "x")`. -/
theorem claim_C3_counterexample :
    decode_download_key (encode_download_key [] ['x']) = none ∧
      some (([] : List Char), ['x']) ≠ none := by
  constructor
  · decide
  · decide

/-- C3 witness at `s = "ab"`, `f = "c"`. -/
theorem claim_C3_witness :
    decode_download_key (encode_download_key ['a', 'b'] ['c']) =
      some (['a', 'b'], ['c']) :=
  claim_C3_theorem ['a', 'b'] ['c'] (by decide) (by decide) (by decide) (by decide)

/-- C10 (confirmed): `decode_download_key` is total — every exception path
of the Python (`ascii` encode, base64 decode, UTF-8 decode, missing `/`)
is a `none` result, never an uncaught raise — and whenever it succeeds, both
returned components are nonempty and free of the path separator `/` (each
is passed through `os.path.basename`). -/
theorem claim_C10_theorem (key sid fn : List Char)
    (h : decode_download_key key = some (sid, fn)) :
    sid ≠ [] ∧ fn ≠ [] ∧ '/' ∉ sid ∧ '/' ∉ fn := by
  simp only [decode_download_key] at h
  by_cases hany : (padB64 key).any (fun c => decide (0x80 ≤ c.toNat))
  · rw [if_pos hany] at h
    exact absurd h (by simp)
  · rw [if_neg hany] at h
    cases hb : b64decodeGroups (padB64 key) with
    | none => rw [hb] at h; exact absurd h (by simp)
    | some raw =>
      rw [hb] at h
      simp only [Option.some_bind] at h
      cases hu : utf8Decode raw with
      | none => rw [hu] at h; exact absurd h (by simp)
      | some rawChars =>
        rw [hu] at h
        simp only [Option.some_bind] at h
        cases hsplit : splitFirst '/' rawChars with
        | none => rw [hsplit] at h; exact absurd h (by simp)
        | some sf =>
          rw [hsplit] at h
          simp only [Option.some_bind] at h
          by_cases hempty : pyBasename sf.1 = [] ∨ pyBasename sf.2 = []
          · rw [if_pos hempty] at h
            exact absurd h (by simp)
          · rw [if_neg hempty] at h
            simp only [Option.some.injEq, Prod.mk.injEq] at h
            obtain ⟨h1, h2⟩ := h
            rw [not_or] at hempty
            subst h1
            subst h2
            exact ⟨hempty.1, hempty.2, mem_pyBasename_ne_slash _,
              mem_pyBasename_ne_slash _⟩

/-- C10 witness at the key `"YS8x"`, which decodes to `("a", "1")`. -/
theorem claim_C10_witness :
    (['a'] : List Char) ≠ [] ∧ (['1'] : List Char) ≠ [] ∧
      '/' ∉ (['a'] : List Char) ∧ '/' ∉ (['1'] : List Char) :=
  claim_C10_theorem ['Y', 'S', '8', 'x'] ['a'] ['1'] (by decide)

/-! ## Python string/bytes helpers shared by the HTTP handlers -/

theorem char_toNat_ofNat (m : Nat) (h : m < 0xD800) : (Char.ofNat m).toNat = m := by
  have hv : m.isValidChar := Or.inl h
  rw [Char.ofNat, dif_pos hv]
  rfl

theorem digitsVal_append (xs ys : List Char) :
    digitsVal (xs ++ ys) = (ys.foldl (fun a c => a * 10 + (c.toNat - 48)) (digitsVal xs)) := by
  unfold digitsVal
  rw [List.foldl_append]

theorem digitsVal_natDigitsFuel :
    ∀ fuel n, n < 10 ^ fuel → digitsVal (natDigitsFuel fuel n) = n := by
  intro fuel
  induction fuel with
  | zero =>
    intro n hn
    interval_cases n
    rfl
  | succ f ih =>
    intro n hn
    by_cases h10 : n < 10
    · simp only [natDigitsFuel, if_pos h10, digitsVal, List.foldl_cons, List.foldl_nil]
      rw [char_toNat_ofNat _ (by omega)]
      omega
    · simp only [natDigitsFuel, if_neg h10]
      rw [digitsVal_append]
      have hrec : n / 10 < 10 ^ f := by
        rw [pow_succ] at hn
        omega
      simp only [List.foldl_cons, List.foldl_nil, ih _ hrec]
      rw [char_toNat_ofNat _ (by omega)]
      omega

theorem digitsVal_natDigits (n : Nat) : digitsVal (natDigits n) = n := by
  apply digitsVal_natDigitsFuel
  calc n < 2 ^ (n + 1) := by
        have := Nat.lt_two_pow n
        have : (2 : Nat) ^ n ≤ 2 ^ (n + 1) := Nat.pow_le_pow_right (by omega) (by omega)
        omega
    _ ≤ 10 ^ (n + 1) := Nat.pow_le_pow_left (by omega) _

theorem natDigits_injective (a b : Nat) (h : natDigits a = natDigits b) : a = b := by
  have ha := digitsVal_natDigits a
  have hb := digitsVal_natDigits b
  rw [h] at ha
  omega

theorem natDigitsFuel_isDigit :
    ∀ fuel n c, c ∈ natDigitsFuel fuel n → 48 ≤ c.toNat ∧ c.toNat < 58 := by
  intro fuel
  induction fuel with
  | zero => intro n c hc; simp [natDigitsFuel] at hc
  | succ f ih =>
    intro n c hc
    by_cases h10 : n < 10
    · simp only [natDigitsFuel, if_pos h10, List.mem_singleton] at hc
      subst hc
      rw [char_toNat_ofNat _ (by omega)]
      omega
    · simp only [natDigitsFuel, if_neg h10, List.mem_append, List.mem_singleton] at hc
      rcases hc with hc | hc
      · exact ih _ _ hc
      · subst hc
        rw [char_toNat_ofNat _ (by omega)]
        omega

theorem natDigits_no_underscore (n : Nat) (c : Char) (hc : c ∈ natDigits n) : c ≠ '_' := by
  have := natDigitsFuel_isDigit _ _ _ hc
  intro he
  subst he
  have h95 : ('_' : Char).toNat = 95 := by decide
  omega

theorem alookup_aset_self (m : List (List Char × α)) (k : List Char) (v : α) :
    alookup (aset m k v) k = some v := by
  induction m with
  | nil => simp [aset, alookup]
  | cons kv rest ih =>
    obtain ⟨k', w⟩ := kv
    by_cases hk : k' = k
    · simp [aset, hk, alookup]
    · simp only [aset, if_neg hk, alookup]
      exact ih

theorem alookup_aset_ne (m : List (List Char × α)) (k k' : List Char) (v : α)
    (h : k ≠ k') : alookup (aset m k v) k' = alookup m k' := by
  induction m with
  | nil => simp [aset, alookup, if_neg h]
  | cons kv rest ih =>
    obtain ⟨k0, w⟩ := kv
    by_cases hk : k0 = k
    · subst hk
      simp only [aset, if_pos rfl, alookup, if_neg h]
    · simp only [aset, if_neg hk, alookup]
      by_cases hk' : k0 = k'
      · rw [if_pos hk', if_pos hk']
      · rw [if_neg hk', if_neg hk']
        exact ih

/-! ## C1: one-time use of upload tokens -/

/-- C1 (corrected): after a successful `POST /upload/{T}`, every second POST
against the same token — any body, any later (or equal) time — is rejected
and leaves the state, in particular the persisted upload bytes, completely
unchanged.  The rejection is the merged `'Token expired or used'` error
(`UploadErr.expiredOrUsed`): `handle_upload` has no distinct AlreadyUsed
code, which is the correction to the claim (see the counterexample). -/
theorem claim_C1_theorem (now epoch : Nat) (token : List Char) (req : UploadRequest)
    (st : ServerState) (fn : List Char) (st' : ServerState)
    (h : handle_upload now epoch token req st = (.ok fn, st')) :
    ∀ now2 epoch2 req2,
      handle_upload now2 epoch2 token req2 st' = (.err .expiredOrUsed, st') := by
  unfold handle_upload at h
  split at h
  · exact absurd h (by simp)
  · rename_i d hd
    split at h
    · exact absurd h (by simp)
    · split at h
      · exact absurd h (by simp)
      · split at h
        · exact absurd h (by simp)
        · split at h
          · exact absurd h (by simp)
          · split at h
            · exact absurd h (by simp)
            · rename_i flnm fc hfp
              split at h
              · exact absurd h (by simp)
              · rw [Prod.mk.injEq] at h
                obtain ⟨hfn, hst⟩ := h
                subst hst
                intro now2 epoch2 req2
                unfold handle_upload
                simp only [alookup_aset_self, or_true, if_true]

/-- C1 counterexample to "rejected with AlreadyUsed": the second POST on the
consumed token `tA` and a first POST on the merely expired, never-used token
`tB` produce the *same* error value with the same JSON message — the code
does not emit a distinct AlreadyUsed code. -/
theorem claim_C1_counterexample :
    (handle_upload 10 7 "tA".toList (mkUploadReq "a.txt" "AB") stC1).1 =
        .ok "a_7.txt".toList ∧
      (handle_upload 11 8 "tA".toList (mkUploadReq "b.txt" "CD")
          (handle_upload 10 7 "tA".toList (mkUploadReq "a.txt" "AB") stC1).2).1 =
        .err .expiredOrUsed ∧
      (handle_upload 11 8 "tB".toList (mkUploadReq "b.txt" "CD") stC1).1 =
        .err .expiredOrUsed ∧
      uploadErrMsg .expiredOrUsed = "Token expired or used".toList := by
  refine ⟨by decide, by decide, by decide, by decide⟩

/-- C1 witness: the concrete two-call run on token `tA`. -/
theorem claim_C1_witness :
    handle_upload 11 8 "tA".toList (mkUploadReq "b.txt" "CD")
        (handle_upload 10 7 "tA".toList (mkUploadReq "a.txt" "AB") stC1).2 =
      (.err .expiredOrUsed,
        (handle_upload 10 7 "tA".toList (mkUploadReq "a.txt" "AB") stC1).2) :=
  claim_C1_theorem 10 7 "tA".toList (mkUploadReq "a.txt" "AB") stC1
    "a_7.txt".toList _ (by decide) 11 8 (mkUploadReq "b.txt" "CD")

/-! ## C2: expired sessions and the sweep -/

/-- C2 (code bug, evaluated at the failing input): session `s1` expired at
time 10, yet at time 20 both `GET /s1` and `GET /s1/a.txt` still serve it;
after `cleanup_sessions 20` the registry entry is gone but the backing
directory `SESSIONS_DIR/s1` still exists — the sweep deletes
`SHARED_DIR/<sid>` instead — and the file remains downloadable. -/
theorem claim_C2_theorem :
    do_GET_session "s1".toList (some "a.txt".toList) stC2 = .fileBytes [104, 105] ∧
      do_GET_session "s1".toList none stC2 = .sessionPage ["a.txt".toList] 10 ∧
      (cleanup_sessions 20 stC2).sessions = [] ∧
      alookup (cleanup_sessions 20 stC2).sessionsFs "s1".toList ≠ none ∧
      do_GET_session "s1".toList (some "a.txt".toList) (cleanup_sessions 20 stC2) =
        .fileBytes [104, 105] := by
  refine ⟨by decide, by decide, by decide, by decide, by decide⟩

/-! ## C4: the Content-Length cap -/

/-- C4 (corrected): when the token passes its checks and the declared
`Content-Length` exceeds the 50 MB cap, the request is rejected with
TooLarge and the state is exactly unchanged — nothing is persisted and the
token registry is untouched; moreover *any* over-length request, whatever
its token, leaves the state unchanged.  The claim's "every POST ... is
rejected with TooLarge" is corrected: an invalid/expired/used token is
reported with that earlier error instead (see the counterexample), though
still with nothing persisted. -/
theorem claim_C4_theorem (now epoch : Nat) (token : List Char) (req : UploadRequest)
    (st : ServerState) (d : TokenData)
    (h1 : alookup st.tokens token = some d)
    (h2 : ¬(now > d.expires ∨ d.used))
    (h3 : req.contentLength > maxFileSize) :
    handle_upload now epoch token req st = (.err .tooLarge, st) ∧
      ∀ now2 epoch2 (token2 : List Char) (st2 : ServerState),
        (handle_upload now2 epoch2 token2 req st2).2 = st2 := by
  constructor
  · unfold handle_upload
    simp only [h1]
    rw [if_neg h2, if_pos h3]
  · intro now2 epoch2 token2 st2
    unfold handle_upload
    split
    · rfl
    · split <;> rfl

/-- C4 counterexample: an over-length POST with an unknown token is rejected
with InvalidToken, not TooLarge (the token checks come first). -/
theorem claim_C4_counterexample :
    handle_upload 0 0 "t".toList
        { contentLength := maxFileSize + 1, contentType := [], body := [] }
        { tokens := [], sessions := [], uploadsDir := [], sessionsFs := [],
          sharedDirs := [] } =
      (.err .invalidToken,
        { tokens := [], sessions := [], uploadsDir := [], sessionsFs := [],
          sharedDirs := [] }) ∧
      UploadErr.invalidToken ≠ UploadErr.tooLarge := by
  refine ⟨by decide, by decide⟩

/-- C4 witness: a pending token and a declared length one byte over the cap. -/
theorem claim_C4_witness :
    handle_upload 10 0 "tA".toList
        { contentLength := maxFileSize + 1, contentType := [], body := [] } stC1 =
      (.err .tooLarge, stC1) ∧
      ∀ now2 epoch2 (token2 : List Char) (st2 : ServerState),
        (handle_upload now2 epoch2 token2
          { contentLength := maxFileSize + 1, contentType := [], body := [] } st2).2 = st2 :=
  claim_C4_theorem 10 0 "tA".toList _ stC1 (freshToken 100) (by decide) (by decide)
    (by decide)

/-! ## C5: on-disk name disambiguation -/

theorem findSubIdx_single_none (c : Char) (l : List Char) (h : c ∉ l) :
    findSubIdx [c] l = none := by
  induction l with
  | nil => rfl
  | cons a t ih =>
    have hca : c ≠ a := fun hc => h (by simp [hc])
    have hct : c ∉ t := fun hm => h (by simp [hm])
    simp only [findSubIdx, isPrefixL, if_neg hca, ih hct]
    rfl

theorem splitextChars_noDot (p : List Char) (h : '.' ∉ p) :
    splitextChars p = (p, []) := by
  unfold splitextChars
  rw [findSubIdx_single_none '.' p.reverse (by rw [List.mem_reverse]; exact h)]
  rfl

theorem natDigits_no_dot (n : Nat) (c : Char) (hc : c ∈ natDigits n) : c ≠ '.' := by
  have := natDigitsFuel_isDigit _ _ _ hc
  intro he
  subst he
  have h46 : ('.' : Char).toNat = 46 := by decide
  omega

theorem findSubIdx_single_append (c : Char) (xs ys : List Char) (h : c ∉ xs) :
    findSubIdx [c] (xs ++ c :: ys) = some xs.length := by
  induction xs with
  | nil =>
    simp [findSubIdx, isPrefixL]
  | cons a t ih =>
    have hca : c ≠ a := fun hc => h (by simp [hc])
    have hct : c ∉ t := fun hm => h (by simp [hm])
    simp only [List.cons_append, findSubIdx, isPrefixL, if_neg hca]
    simp [ih hct]

theorem take_len_append (u v : List Char) : (u ++ v).take u.length = u := by
  induction u with
  | nil => rfl
  | cons a t ih => simp [List.take, ih]

theorem drop_len_append (u v : List Char) : (u ++ v).drop u.length = v := by
  induction u with
  | nil => rfl
  | cons a t ih => simpa using ih

/-- Behaviour of `os.path.splitext` at an explicit last-dot decomposition:
the split happens exactly when some character before the last dot is not a
dot (Python's leading-dot rule, `.bashrc`-style names stay whole). -/
theorem splitextChars_last (a b : List Char) (hb : '.' ∉ b) :
    splitextChars (a ++ '.' :: b) =
      if a.any (fun c => c != '.') then (a, '.' :: b) else (a ++ '.' :: b, []) := by
  have hfind : findSubIdx ['.'] ((a ++ '.' :: b).reverse) = some b.length := by
    have hrev : (a ++ '.' :: b).reverse = b.reverse ++ '.' :: a.reverse := by simp
    rw [hrev]
    have := findSubIdx_single_append '.' b.reverse a.reverse (by simpa using hb)
    simpa using this
  have hdi : (a ++ '.' :: b).length - 1 - b.length = a.length := by
    simp only [List.length_append, List.length_cons]
    omega
  unfold splitextChars
  rw [hfind]
  simp only [Option.map_some', hdi]
  rw [take_len_append a ('.' :: b), drop_len_append a ('.' :: b)]

theorem mem_last_split (c : Char) (p : List Char) (h : c ∈ p) :
    ∃ a b, p = a ++ c :: b ∧ c ∉ b := by
  induction p with
  | nil => cases h
  | cons x xs ih =>
    by_cases hx : c ∈ xs
    · obtain ⟨a, b, hab, hb⟩ := ih hx
      exact ⟨x :: a, b, by rw [hab, List.cons_append], hb⟩
    · have hcx : c = x := by
        rcases List.mem_cons.mp h with h1 | h1
        · exact h1
        · exact absurd h1 hx
      subst hcx
      exact ⟨[], xs, rfl, hx⟩

/-- Uniqueness of the first-occurrence decomposition around a separator. -/
theorem sep_first_eq (sep : Char) (u1 : List Char) :
    ∀ (u2 v1 v2 : List Char), sep ∉ u1 → sep ∉ u2 →
      u1 ++ sep :: v1 = u2 ++ sep :: v2 → u1 = u2 ∧ v1 = v2 := by
  induction u1 with
  | nil =>
    intro u2 v1 v2 h1 h2 heq
    cases u2 with
    | nil =>
      simp only [List.nil_append] at heq
      refine ⟨rfl, ?_⟩
      injection heq with hv
    | cons y u2' =>
      simp only [List.nil_append, List.cons_append] at heq
      injection heq with hy _
      subst hy
      exact absurd (List.mem_cons_self _ _) h2
  | cons x u1' ih =>
    intro u2 v1 v2 h1 h2 heq
    cases u2 with
    | nil =>
      simp only [List.nil_append, List.cons_append] at heq
      injection heq with hy _
      subst hy
      exact absurd (List.mem_cons_self _ _) h1
    | cons y u2' =>
      simp only [List.cons_append] at heq
      injection heq with hxy htl
      subst hxy
      have h1' : sep ∉ u1' := fun hm => h1 (List.mem_cons_of_mem _ hm)
      have h2' : sep ∉ u2' := fun hm => h2 (List.mem_cons_of_mem _ hm)
      obtain ⟨hu, hv⟩ := ih u2' v1 v2 h1' h2' htl
      exact ⟨by rw [hu], hv⟩

/-- Uniqueness of the last-occurrence decomposition around a separator. -/
theorem sep_last_eq (sep : Char) (x1 v1 x2 v2 : List Char)
    (h1 : sep ∉ v1) (h2 : sep ∉ v2)
    (heq : x1 ++ sep :: v1 = x2 ++ sep :: v2) : x1 = x2 ∧ v1 = v2 := by
  have hrev := congrArg List.reverse heq
  simp only [List.reverse_append, List.reverse_cons, List.append_assoc,
    List.singleton_append] at hrev
  have h1r : sep ∉ v1.reverse := by simpa using h1
  have h2r : sep ∉ v2.reverse := by simpa using h2
  obtain ⟨hv, hx⟩ := sep_first_eq sep v1.reverse v2.reverse x1.reverse x2.reverse h1r h2r hrev
  constructor
  · have := congrArg List.reverse hx
    simpa using this
  · have := congrArg List.reverse hv
    simpa using this

theorem dropWhile_append_all (p : Char → Bool) (u v : List Char)
    (h : ∀ a ∈ u, p a = true) :
    List.dropWhile p (u ++ v) = List.dropWhile p v := by
  induction u with
  | nil => rfl
  | cons x t ih =>
    have hx : p x = true := h x (List.mem_cons_self _ _)
    simp only [List.cons_append, List.dropWhile_cons, hx, if_true]
    exact ih (fun a ha => h a (List.mem_cons_of_mem _ ha))

theorem dropWhile_append_stop (p : Char → Bool) (u v : List Char) (c : Char)
    (hc : p c = false) :
    List.dropWhile p (u ++ c :: v) = List.dropWhile p u ++ c :: v := by
  induction u with
  | nil => simp [List.dropWhile_cons, hc]
  | cons x t ih =>
    by_cases hx : p x = true
    · simp only [List.cons_append, List.dropWhile_cons, hx, if_true, ih]
    · have hx' : p x = false := by simpa using hx
      simp [List.dropWhile_cons, hx']

theorem mem_of_mem_dropWhile (p : Char → Bool) (l : List Char) (a : Char)
    (h : a ∈ List.dropWhile p l) : a ∈ l := by
  induction l with
  | nil => simpa using h
  | cons x t ih =>
    by_cases hx : p x = true
    · rw [List.dropWhile_cons, if_pos hx] at h
      exact List.mem_cons_of_mem _ (ih h)
    · rw [List.dropWhile_cons, if_neg hx] at h
      exact h

/-- A dotless-after-leading-dots name followed by the digit block can never
equal a name whose tail still contains a dot: stripping the leading dots
leaves a dot on one side only. -/
theorem dot_shape_mixed (k : Nat) (q d n2 v : List Char)
    (hq : '.' ∉ q) (hd : '.' ∉ d) (hv : '.' ∈ v) :
    (List.replicate k '.' ++ q) ++ '_' :: d ≠ n2 ++ '_' :: v := by
  intro heq
  have h := congrArg (List.dropWhile (fun c => c == '.')) heq
  rw [List.append_assoc] at h
  rw [dropWhile_append_all _ (List.replicate k '.') _ (by
      intro a ha
      have := List.eq_of_mem_replicate ha
      simp [this])] at h
  rw [dropWhile_append_stop _ q _ '_' (by decide),
    dropWhile_append_stop _ n2 _ '_' (by decide)] at h
  have hdot : '.' ∈ List.dropWhile (fun c => c == '.') q ++ '_' :: d := by
    rw [h]
    exact List.mem_append_right _ (List.mem_cons_of_mem _ hv)
  rcases List.mem_append.mp hdot with hm | hm
  · exact hq (mem_of_mem_dropWhile _ _ _ hm)
  · rcases List.mem_cons.mp hm with hm | hm
    · exact absurd hm (by decide)
    · exact hd hm

/-- Structural invariant of every splitext result: either the extension is
empty and the dots of the stem are a leading run, or the extension is a
final dot segment containing no further dot. -/
theorem splitextChars_shape (p : List Char) :
    ((splitextChars p).2 = [] ∧
        ∃ k q, (splitextChars p).1 = List.replicate k '.' ++ q ∧ '.' ∉ q) ∨
      ∃ b, (splitextChars p).2 = '.' :: b ∧ '.' ∉ b := by
  by_cases hd : '.' ∈ p
  · obtain ⟨a, b, rfl, hb⟩ := mem_last_split '.' p hd
    rw [splitextChars_last a b hb]
    by_cases hg : a.any (fun c => c != '.') = true
    · right
      rw [if_pos hg]
      exact ⟨b, rfl, hb⟩
    · left
      rw [if_neg hg]
      have ha : ∀ c ∈ a, c = '.' := by
        intro c hc
        by_contra hne
        exact hg (List.any_eq_true.mpr ⟨c, hc, by simpa using hne⟩)
      have hrep : a = List.replicate a.length '.' := List.eq_replicate_of_mem ha
      refine ⟨rfl, a.length + 1, b, ?_, hb⟩
      rw [List.replicate_succ', List.append_assoc, List.singleton_append, ← hrep]
  · left
    rw [splitextChars_noDot p hd]
    exact ⟨rfl, 0, p, by simp, hd⟩

/-- Normal form of the on-disk name: stem, underscore, timestamp digits,
extension — with the splitext invariants carried along. -/
theorem uploadDiskName_shape (f : List Char) (t : Nat) :
    ∃ n e, uploadDiskName f t = n ++ '_' :: (natDigits t ++ e) ∧
      ((e = [] ∧ ∃ k q, n = List.replicate k '.' ++ q ∧ '.' ∉ q) ∨
        ∃ b, e = '.' :: b ∧ '.' ∉ b) := by
  refine ⟨(splitextChars (if pyBasename f = [] then "upload_".toList ++ natDigits t
      else pyBasename f)).1,
    (splitextChars (if pyBasename f = [] then "upload_".toList ++ natDigits t
      else pyBasename f)).2, ?_, ?_⟩
  · simp only [uploadDiskName, List.append_assoc, List.cons_append]
  · exact splitextChars_shape _

/-- C5 (corrected): any two successful uploads whose creation timestamps
(whole seconds, `int(time.time())`) differ receive distinct on-disk names,
whatever the two client-supplied filenames are — the timestamp digit block
contains no underscore and no dot, so it is always recoverable from the
name.  The claim's unconditional never-collides is false: within the same
second two uploads of the same filename coincide and the later one
overwrites the earlier one (see the counterexample). -/
theorem claim_C5_theorem (f1 f2 : List Char) (t1 t2 : Nat) (hne : t1 ≠ t2) :
    uploadDiskName f1 t1 ≠ uploadDiskName f2 t2 := by
  intro heq
  obtain ⟨n1, e1, h1, hs1⟩ := uploadDiskName_shape f1 t1
  obtain ⟨n2, e2, h2, hs2⟩ := uploadDiskName_shape f2 t2
  rw [h1, h2] at heq
  have hd1 : '_' ∉ natDigits t1 := fun hm => natDigits_no_underscore t1 '_' hm rfl
  have hd2 : '_' ∉ natDigits t2 := fun hm => natDigits_no_underscore t2 '_' hm rfl
  have hdot1 : '.' ∉ natDigits t1 := fun hm => natDigits_no_dot t1 '.' hm rfl
  have hdot2 : '.' ∉ natDigits t2 := fun hm => natDigits_no_dot t2 '.' hm rfl
  rcases hs1 with ⟨he1, k1, q1, hn1, hq1⟩ | ⟨b1, hb1, hbd1⟩ <;>
    rcases hs2 with ⟨he2, k2, q2, hn2, hq2⟩ | ⟨b2, hb2, hbd2⟩
  · subst he1
    subst he2
    simp only [List.append_nil] at heq
    obtain ⟨-, hD⟩ := sep_last_eq '_' n1 (natDigits t1) n2 (natDigits t2) hd1 hd2 heq
    exact hne (natDigits_injective _ _ hD)
  · subst he1
    subst hb2
    simp only [List.append_nil] at heq
    rw [hn1] at heq
    exact dot_shape_mixed k1 q1 (natDigits t1) n2 (natDigits t2 ++ '.' :: b2) hq1 hdot1
      (List.mem_append_right _ (List.mem_cons_self _ _)) heq
  · subst hb1
    subst he2
    simp only [List.append_nil] at heq
    rw [hn2] at heq
    exact dot_shape_mixed k2 q2 (natDigits t2) n1 (natDigits t1 ++ '.' :: b1) hq2 hdot2
      (List.mem_append_right _ (List.mem_cons_self _ _)) heq.symm
  · subst hb1
    subst hb2
    rw [show n1 ++ '_' :: (natDigits t1 ++ '.' :: b1) =
          (n1 ++ '_' :: natDigits t1) ++ '.' :: b1 by simp,
      show n2 ++ '_' :: (natDigits t2 ++ '.' :: b2) =
          (n2 ++ '_' :: natDigits t2) ++ '.' :: b2 by simp] at heq
    obtain ⟨hpre, -⟩ := sep_last_eq '.' (n1 ++ '_' :: natDigits t1) b1
      (n2 ++ '_' :: natDigits t2) b2 hbd1 hbd2 heq
    obtain ⟨-, hD⟩ := sep_last_eq '_' n1 (natDigits t1) n2 (natDigits t2) hd1 hd2 hpre
    exact hne (natDigits_injective _ _ hD)

/-- C5 counterexample: two uploads of `a.txt` through different tokens in
the same second (epoch 7) get the *same* on-disk name `a_7.txt`, and the
second upload's bytes replace the first's. -/
theorem claim_C5_counterexample :
    (handle_upload 10 7 "tA".toList (mkUploadReq "a.txt" "AB") stC1).1 =
        .ok "a_7.txt".toList ∧
      (handle_upload 11 7 "tB".toList (mkUploadReq "a.txt" "CD")
          { (handle_upload 10 7 "tA".toList (mkUploadReq "a.txt" "AB") stC1).2 with
            tokens := [("tB".toList, freshToken 100)] }).1 = .ok "a_7.txt".toList ∧
      alookup (handle_upload 10 7 "tA".toList (mkUploadReq "a.txt" "AB") stC1).2.uploadsDir
          "a_7.txt".toList = some [65, 66] ∧
      alookup (handle_upload 11 7 "tB".toList (mkUploadReq "a.txt" "CD")
          { (handle_upload 10 7 "tA".toList (mkUploadReq "a.txt" "AB") stC1).2 with
            tokens := [("tB".toList, freshToken 100)] }).2.uploadsDir
          "a_7.txt".toList = some [67, 68] := by
  refine ⟨by decide, by decide, by decide, by decide⟩

/-- C5 witness: distinct timestamps give distinct names even across the
cross-filename pair `report.pdf` at 100 and `report_100.pdf` at 101. -/
theorem claim_C5_witness :
    uploadDiskName "report.pdf".toList 100 ≠ uploadDiskName "report_100.pdf".toList 101 :=
  claim_C5_theorem "report.pdf".toList "report_100.pdf".toList 100 101 (by decide)

/-- C6 (corrected): `handle_upload` checks its preconditions exactly in the
amended order and answers the predicted error with the state unchanged.
The correction to the claim: an expired token and an already-used token are
*not* two distinguishable failures — both map to the single
`expiredOrUsed` branch (see the counterexample). -/
theorem claim_C6_theorem (now epoch : Nat) (token : List Char) (req : UploadRequest)
    (st : ServerState) (e : UploadErr)
    (h : uploadFailureSpec now token req st = some e) :
    handle_upload now epoch token req st = (.err e, st) := by
  unfold uploadFailureSpec at h
  unfold handle_upload
  cases hl : alookup st.tokens token with
  | none =>
    simp only [hl] at h ⊢
    rw [← Option.some.injEq] at h
    simp only [Option.some.injEq] at h
    rw [← h]
  | some d =>
    simp only [hl] at h ⊢
    by_cases hc1 : now > d.expires ∨ d.used
    · rw [if_pos hc1] at h ⊢
      simp only [Option.some.injEq] at h
      rw [← h]
    · rw [if_neg hc1] at h ⊢
      by_cases hc2 : req.contentLength > maxFileSize
      · rw [if_pos hc2] at h ⊢
        simp only [Option.some.injEq] at h
        rw [← h]
      · rw [if_neg hc2] at h ⊢
        by_cases hc3 : (!(containsSub "multipart/form-data".toList req.contentType)) = true
        · rw [if_pos hc3] at h ⊢
          simp only [Option.some.injEq] at h
          rw [← h]
        · rw [if_neg hc3] at h ⊢
          cases hbnd : (pySplit "boundary=".toList req.contentType).get? 1 with
          | none =>
            simp only [hbnd, Option.isNone_none, if_pos] at h ⊢
            simp only [Option.some.injEq] at h
            rw [← h]
          | some bnd =>
            simp only [hbnd, Option.isNone_some] at h
            exact absurd h (by simp)

/-- C6 counterexample: an unexpired-but-used token and an expired-but-unused
token are rejected with the *same* error value and the same JSON message —
`Expired` and `AlreadyUsed` are not distinguishable failures here. -/
theorem claim_C6_counterexample :
    (handle_upload 20 0 "u1".toList (mkUploadReq "a.txt" "AB")
        { tokens := [("u1".toList, { freshToken 100 with used := true })],
          sessions := [], uploadsDir := [], sessionsFs := [], sharedDirs := [] }).1 =
      (handle_upload 20 0 "e1".toList (mkUploadReq "a.txt" "AB")
        { tokens := [("e1".toList, freshToken 15)],
          sessions := [], uploadsDir := [], sessionsFs := [], sharedDirs := [] }).1 ∧
      (handle_upload 20 0 "u1".toList (mkUploadReq "a.txt" "AB")
        { tokens := [("u1".toList, { freshToken 100 with used := true })],
          sessions := [], uploadsDir := [], sessionsFs := [], sharedDirs := [] }).1 =
        .err .expiredOrUsed := by
  refine ⟨by decide, by decide⟩

/-- C6 witness: the size-cap stage at a concrete pending token. -/
theorem claim_C6_witness :
    handle_upload 10 0 "tA".toList
        { contentLength := maxFileSize + 2, contentType := [], body := [] } stC1 =
      (.err .tooLarge, stC1) :=
  claim_C6_theorem 10 0 "tA".toList _ stC1 .tooLarge (by decide)

/-- C7 (confirmed): `check_token` recomputes `expired` from the stored
expiry on every call, so an expired-but-not-yet-reaped token answers with
`expired = true` — it reads as Expired, never Pending — and a response
classifies as Pending exactly when the token exists, is unused and its
expiry has not passed. -/
theorem claim_C7_theorem (now : Nat) (token : List Char) (st : ServerState)
    (d : TokenData) (h : alookup st.tokens token = some d) :
    (now > d.expires →
      check_token now token st = .info d.used d.filename d.expires true ∧
        checkStatus (check_token now token st) ≠ .pending) ∧
      (checkStatus (check_token now token st) = .pending ↔
        (d.used = false ∧ ¬now > d.expires)) := by
  unfold check_token
  simp only [h]
  constructor
  · intro hexp
    refine ⟨by rw [decide_eq_true hexp], ?_⟩
    rw [decide_eq_true hexp]
    simp only [checkStatus]
    by_cases hu : d.used = true
    · simp [hu]
    · simp [hu]
  · simp only [checkStatus]
    by_cases hu : d.used = true
    · simp [hu]
    · by_cases hexp : now > d.expires
      · simp [hu, hexp]
      · simp [hu, hexp]

/-- C7 witness: token `tB` of the fixture expired at 5; at time 10 the check
answers `expired = true` and the classification is not Pending, and the
Pending classification holds precisely for unused-unexpired. -/
theorem claim_C7_witness :
    (check_token 10 "tB".toList stC1 = .info false none 5 true ∧
      checkStatus (check_token 10 "tB".toList stC1) ≠ .pending) ∧
      (checkStatus (check_token 10 "tB".toList stC1) = .pending ↔
        ((freshToken 5).used = false ∧ ¬(10 : Nat) > (freshToken 5).expires)) :=
  ⟨(claim_C7_theorem 10 "tB".toList stC1 (freshToken 5) (by decide)).1 (by decide),
    (claim_C7_theorem 10 "tB".toList stC1 (freshToken 5) (by decide)).2⟩

/-- C9 (corrected): `files_server.load_json` is fail-open for both an
absent and an unparsable document, and `unified_server.load_sessions` is
fail-open for an absent one; but the latter raises on an unparsable
document (see the counterexample), so the claim's "for every registry
name" does not hold across both loaders. -/
theorem claim_C9_theorem :
    load_json (RegistryDoc.absent (α := SessionData)) = [] ∧
      load_json (RegistryDoc.unparsable (α := SessionData)) = [] ∧
      (∀ m : List (List Char × SessionData), load_json (RegistryDoc.parsed m) = m) ∧
      load_sessions_unified (RegistryDoc.absent (α := SessionData)) = .ok [] := by
  refine ⟨rfl, rfl, fun m => rfl, rfl⟩

/-- C9 counterexample: a present-but-corrupt `sessions.json` makes
`unified_server.load_sessions` raise instead of returning an empty
mapping. -/
theorem claim_C9_counterexample :
    load_sessions_unified (RegistryDoc.unparsable (α := SessionData)) = .raised ∧
      ∀ m : List (List Char × SessionData),
        PyLoadResult.raised ≠ PyLoadResult.ok m := by
  exact ⟨rfl, fun m h => PyLoadResult.noConfusion h⟩

/-! ## C8: addFile across the two variants -/

theorem alookup_cons (k0 : List Char) (v0 : α) (rest : List (List Char × α))
    (key : List Char) :
    alookup ((k0, v0) :: rest) key = if k0 = key then some v0 else alookup rest key := rfl

theorem alookup_none_of_not_mem (m : List (List Char × α)) (k : List Char)
    (h : k ∉ m.map Prod.fst) : alookup m k = none := by
  induction m with
  | nil => rfl
  | cons kv rest ih =>
    obtain ⟨k0, v0⟩ := kv
    simp only [List.map_cons, List.mem_cons, not_or] at h
    rw [alookup_cons, if_neg (Ne.symm h.1)]
    exact ih h.2

theorem alookup_filter_of_some (m : List (List Char × α)) (k : List Char) (v : α)
    (p : List Char × α → Bool) (h : alookup m k = some v) (hp : p (k, v) = true) :
    alookup (m.filter p) k = some v := by
  induction m with
  | nil => exact absurd h (by simp [alookup])
  | cons kv rest ih =>
    obtain ⟨k0, v0⟩ := kv
    by_cases hk : k0 = k
    · subst hk
      rw [alookup_cons, if_pos rfl] at h
      injection h with hv
      subst hv
      simp only [List.filter_cons, hp, if_true]
      rw [alookup_cons, if_pos rfl]
    · rw [alookup_cons, if_neg hk] at h
      simp only [List.filter_cons]
      split
      · rw [alookup_cons, if_neg hk]
        exact ih h
      · exact ih h

theorem alookup_filter_none (m : List (List Char × α)) (k : List Char)
    (p : List Char × α → Bool) (h : alookup m k = none) :
    alookup (m.filter p) k = none := by
  induction m with
  | nil => rfl
  | cons kv rest ih =>
    obtain ⟨k0, v0⟩ := kv
    by_cases hk : k0 = k
    · subst hk
      rw [alookup_cons, if_pos rfl] at h
      exact absurd h (by simp)
    · rw [alookup_cons, if_neg hk] at h
      simp only [List.filter_cons]
      split
      · rw [alookup_cons, if_neg hk]
        exact ih h
      · exact ih h

theorem alookup_filter_dropped (m : List (List Char × α)) (k : List Char) (v : α)
    (p : List Char × α → Bool) (hnd : (m.map Prod.fst).Nodup)
    (h : alookup m k = some v) (hp : p (k, v) = false) :
    alookup (m.filter p) k = none := by
  induction m with
  | nil => exact absurd h (by simp [alookup])
  | cons kv rest ih =>
    obtain ⟨k0, v0⟩ := kv
    simp only [List.map_cons, List.nodup_cons] at hnd
    by_cases hk : k0 = k
    · subst hk
      rw [alookup_cons, if_pos rfl] at h
      injection h with hv
      subst hv
      simp only [List.filter_cons, hp, Bool.false_eq_true, if_false]
      exact alookup_filter_none _ _ _ (alookup_none_of_not_mem _ _ hnd.1)
    · rw [alookup_cons, if_neg hk] at h
      simp only [List.filter_cons]
      split
      · rw [alookup_cons, if_neg hk]
        exact ih hnd.2 h
      · exact ih hnd.2 h

/-- C8 (corrected, for the `share_file` tool of `file_share_server`, which
sweeps expired sessions on entry): with an existing source file, a call
naming an unknown session or an expired session answers Session-not-found,
and a call naming a live session copies the file in and appends the
filename to the session's list only when it is not already present, so a
duplicate-free list stays duplicate-free.  The correction:
`file_server.add_file_to_session` does *not* satisfy the claim — it ignores
expiry and appends unconditionally (see the counterexample). -/
theorem claim_C8_theorem (now : Nat) (newSid filePath sid descr : List Char)
    (extFs : List (List Char × List Nat)) (st : ServerState) (bytes : List Nat)
    (hext : alookup extFs filePath = some bytes)
    (hndS : (st.sessions.map Prod.fst).Nodup)
    (hndF : (st.sessionsFs.map Prod.fst).Nodup)
    (hwf : alookup st.sessionsFs sid = none ↔ alookup st.sessions sid = none) :
    (alookup st.sessions sid = none →
      (tool_share_file now newSid filePath (some sid) descr extFs st).1 =
        .errSessionNotFound) ∧
      (∀ d, alookup st.sessions sid = some d → now > d.expires →
        (tool_share_file now newSid filePath (some sid) descr extFs st).1 =
          .errSessionNotFound) ∧
      (∀ d, alookup st.sessions sid = some d → ¬now > d.expires →
        (tool_share_file now newSid filePath (some sid) descr extFs st).1 =
            .link sid (pyBasename filePath) ∧
          ∃ d', alookup
              (tool_share_file now newSid filePath (some sid) descr extFs st).2.sessions
              sid = some d' ∧
            d'.files = (if pyBasename filePath ∈ d.files then d.files
              else d.files ++ [pyBasename filePath]) ∧
            (d.files.Nodup → d'.files.Nodup)) := by
  refine ⟨?_, ?_, ?_⟩
  · intro hnone
    have hfs : alookup st.sessionsFs sid = none := hwf.mpr hnone
    have hfs0 : alookup (cleanup_expired_sessions_fss now st).sessionsFs sid = none :=
      alookup_filter_none _ _ _ hfs
    simp only [tool_share_file, hext, hfs0]
  · intro d hd hexp
    obtain ⟨dirFiles, hfs⟩ : ∃ dirFiles, alookup st.sessionsFs sid = some dirFiles := by
      cases hfs : alookup st.sessionsFs sid with
      | none => exact absurd (hwf.mp hfs) (by simp [hd])
      | some dirFiles => exact ⟨dirFiles, rfl⟩
    have hq : (fun kv : List Char × List (List Char × List Nat) =>
        !((alookup st.sessions kv.1).any (fun s => decide (now > s.expires))))
          (sid, dirFiles) = false := by
      simp only [hd, Option.any_some, Bool.not_eq_false', decide_eq_true_eq]
      exact hexp
    have hfs0 : alookup (cleanup_expired_sessions_fss now st).sessionsFs sid = none :=
      alookup_filter_dropped _ _ _ _ hndF hfs hq
    simp only [tool_share_file, hext, hfs0]
  · intro d hd hexp
    obtain ⟨dirFiles, hfs⟩ : ∃ dirFiles, alookup st.sessionsFs sid = some dirFiles := by
      cases hfs : alookup st.sessionsFs sid with
      | none => exact absurd (hwf.mp hfs) (by simp [hd])
      | some dirFiles => exact ⟨dirFiles, rfl⟩
    have hq : (fun kv : List Char × List (List Char × List Nat) =>
        !((alookup st.sessions kv.1).any (fun s => decide (now > s.expires))))
          (sid, dirFiles) = true := by
      simp only [hd, Option.any_some, Bool.not_eq_true', decide_eq_false_iff_not]
      exact hexp
    have hfs0 : alookup (cleanup_expired_sessions_fss now st).sessionsFs sid =
        some dirFiles := alookup_filter_of_some _ _ _ _ hfs hq
    have hp : (fun kv : List Char × SessionData =>
        !(decide (now > kv.2.expires))) (sid, d) = true := by
      simp only [Bool.not_eq_true', decide_eq_false_iff_not]
      exact hexp
    have hs0 : alookup (cleanup_expired_sessions_fss now st).sessions sid = some d :=
      alookup_filter_of_some _ _ _ _ hd hp
    simp only [tool_share_file, hext, hfs0, hs0]
    by_cases hmem : pyBasename filePath ∈ d.files
    · rw [if_pos hmem, if_pos hmem]
      exact ⟨rfl, d, hs0, rfl, fun h => h⟩
    · rw [if_neg hmem, if_neg hmem]
      refine ⟨rfl, { d with files := d.files ++ [pyBasename filePath] },
        alookup_aset_self _ _ _, rfl, fun hnd => ?_⟩
      simp only [List.nodup_append, List.nodup_cons, List.not_mem_nil, not_false_iff,
        List.nodup_nil, and_true, true_and]
      refine ⟨hnd, ?_⟩
      intro a ha hb
      simp only [List.mem_singleton] at hb
      subst hb
      exact hmem ha

/-- C8 counterexample: `file_server.add_file_to_session` on a live session
already holding `a.txt` appends `a.txt` again — the files list gains a
duplicate (and the function takes no clock at all, so it cannot reject an
expired-but-unswept session either). -/
theorem claim_C8_counterexample :
    (add_file_to_session "s".toList "a.txt".toList (some [66]) none [] stC8).1 =
        .url "s".toList "a.txt".toList ∧
      (alookup (add_file_to_session "s".toList "a.txt".toList (some [66]) none []
          stC8).2.sessions "s".toList).map SessionData.files =
        some ["a.txt".toList, "a.txt".toList] ∧
      ¬(["a.txt".toList, "a.txt".toList] : List (List Char)).Nodup := by
  refine ⟨by decide, by decide, by decide⟩

/-- C8 witness: sharing `docs/r.pdf` into the live session `s`. -/
theorem claim_C8_witness :
    (tool_share_file 5 [] "docs/r.pdf".toList (some "s".toList) []
        [("docs/r.pdf".toList, [80])] stC8).1 = .link "s".toList "r.pdf".toList ∧
      ∃ d', alookup (tool_share_file 5 [] "docs/r.pdf".toList (some "s".toList) []
          [("docs/r.pdf".toList, [80])] stC8).2.sessions "s".toList = some d' ∧
        d'.files = (if "r.pdf".toList ∈ [("a.txt".toList)] then [("a.txt".toList)]
          else [("a.txt".toList)] ++ ["r.pdf".toList]) ∧
        (([("a.txt".toList)] : List (List Char)).Nodup → d'.files.Nodup) := by
  have h := (claim_C8_theorem 5 [] "docs/r.pdf".toList "s".toList []
    [("docs/r.pdf".toList, [80])] stC8 [80] (by decide) (by decide) (by decide)
    (by decide)).2.2 ⟨0, 100, [], ["a.txt".toList]⟩ (by decide) (by decide)
  exact h
